import Mathlib

/-!
Shallow embedding of the `tilepad-manifest` crate (files `validation.rs`,
`plugin.rs`, `icons.rs`, `system.rs`, `lib.rs`).

Strings are modelled as Lean `String` / `List Char`.  Rust's
`char::is_alphanumeric` is a Unicode character-class query whose table is not
reproduced here; every definition that needs it takes the classifier as an
explicit parameter `uni : Char → Bool`.  The ASCII-only queries
(`is_ascii_alphabetic`, `is_ascii_hexdigit`, digit parsing) are modelled
exactly.  Rust's `str::trim` / `str::to_lowercase` are modelled on the ASCII
range (all inputs exercised by the theorems below are ASCII).  Rust's
`f64::from_str` parses over the same literal grammar and is correctly rounded
(round to nearest, ties to even); the model keeps the literal's exact decimal
value and `parse_alpha`'s range check accepts exactly those exact values whose
rounded binary64 lies in `[0.0, 1.0]` — the interval `[-2^-1075, 1 + 2^-53]`
(see `f64InUnit`).  The `inf`/`nan` literals that the grammar above does not
produce are folded into the failure case, which is observationally equivalent
inside `parse_alpha` because their values never pass the range check.
-/

namespace Tilepad

/-- The two separator characters allowed in names (`NAME_SEPARATORS` in
`validation.rs`). -/
def isSep (c : Char) : Bool :=
  c == '-' || c == '_'

/-- Rust `str::starts_with(pred)`: the first character exists and satisfies
the predicate. -/
def startsWithPred (p : Char → Bool) : List Char → Bool
  | [] => false
  | c :: _ => p c

/-- Rust `str::ends_with(NAME_SEPARATORS)`: the last character is `-` or
`_`. -/
def endsWithSep (l : List Char) : Bool :=
  match l.getLast? with
  | some c => isSep c
  | none => false

/-- Rust `str::ends_with(c)` for a single character. -/
def endsWithChar (c : Char) (l : List Char) : Bool :=
  match l.getLast? with
  | some x => x == c
  | none => false

/-- Rust `str::split(sep)`: splitting the empty string yields one empty
piece, and every separator occurrence delimits a (possibly empty) piece. -/
def splitOnChar (sep : Char) : List Char → List (List Char)
  | [] => [[]]
  | c :: cs =>
    let rest := splitOnChar sep cs
    if c == sep then
      [] :: rest
    else
      match rest with
      | [] => [[c]]
      | h :: t => (c :: h) :: t

/-- Rust `str::trim` (ASCII whitespace). -/
def trimChars (l : List Char) : List Char :=
  ((l.dropWhile Char.isWhitespace).reverse.dropWhile Char.isWhitespace).reverse

/-- Rust `str::to_lowercase`, char-wise on the ASCII range. -/
def lowerChars (l : List Char) : List Char :=
  l.map Char.toLower

/-- Rust `str::strip_prefix`: `some` of the remainder when the first argument
is a prefix of the second, `none` otherwise. -/
def stripPre? : List Char → List Char → Option (List Char)
  | [], l => some l
  | _ :: _, [] => none
  | p :: ps, c :: cs => if c == p then stripPre? ps cs else none

/-- Rust `str::strip_suffix`, via `stripPre?` on the reversed lists. -/
def stripSuf? (suf l : List Char) : Option (List Char) :=
  (stripPre? suf.reverse l.reverse).map List.reverse

/-- Rust `str::starts_with(s)` for a string pattern. -/
def startsWithSeq (pre l : List Char) : Bool :=
  (stripPre? pre l).isSome

/-- Numeric value of an ASCII digit. -/
def digitVal (c : Char) : Nat :=
  c.toNat - '0'.toNat

/-- Value of a digit string (no sign handling). -/
def digitsVal (l : List Char) : Nat :=
  l.foldl (fun a c => a * 10 + digitVal c) 0

/-- The core of Rust's unsigned `from_str`: a non-empty all-ASCII-digit
string. -/
def parseDigits (l : List Char) : Option Nat :=
  if l.isEmpty then none
  else if l.all Char.isDigit then some (digitsVal l)
  else none

/-- Rust unsigned-integer `from_str` before the type-bound check: an optional
leading `+` followed by one or more ASCII digits (leading zeros allowed, `-`
rejected). -/
def rustParseNat : List Char → Option Nat
  | '+' :: rest => parseDigits rest
  | l => parseDigits l

/-- Rust `s.parse::<uN>()` for an unsigned type with maximum `bound`
(`u8`: 255, `u16`: 65535): grammar as in `rustParseNat`, overflow is an
error. -/
def parseBounded (bound : Nat) (l : List Char) : Option Nat :=
  match rustParseNat l with
  | some n => if n ≤ bound then some n else none
  | none => none

/-- The exact value of a decimal floating-point literal: a signed mantissa
`m` and a decimal exponent `e`, denoting `m * 10 ^ e`. -/
structure Dec where
  m : Int
  e : Int
deriving DecidableEq

/-- The rational number a `Dec` denotes. -/
def Dec.toRat (d : Dec) : ℚ :=
  (d.m : ℚ) * (10 : ℚ) ^ d.e

/-- The exact decimal values whose IEEE-754 binary64 rounding (round to
nearest, ties to even — the documented semantics of Rust's `f64::from_str`)
lands in the closed range `[0.0, 1.0]` accepted by `(0.0..=1.0).contains`.
The lower endpoint `-2^-1075` is halfway between `-0.0` and the smallest
negative subnormal `-2^-1074`; the tie goes to `-0.0` (even significand), and
`-0.0 >= 0.0` holds under IEEE comparison, so it is accepted.  Anything below
rounds to a negative nonzero float and is rejected.  The upper endpoint
`1 + 2^-53` is halfway between `1.0` and the next float `1 + 2^-52`; the tie
goes to `1.0` (even significand) and is accepted, anything above rounds to at
least `1 + 2^-52` and is rejected (overflow to infinity included). -/
def f64InUnit (q : ℚ) : Prop :=
  -(1 / 2 ^ 1075) ≤ q ∧ q ≤ 1 + 1 / 2 ^ 53

/-- Executable form of `f64InUnit` on a `Dec`, by pure integer arithmetic:
`m * 10 ^ e` is compared against `-1 / 2 ^ 1075` and `(2 ^ 53 + 1) / 2 ^ 53`
after clearing denominators (proved equivalent to `f64InUnit toRat` below).
The powers are computed in `ℕ` and cast. -/
def Dec.inUnitF64 (d : Dec) : Bool :=
  (if 0 ≤ d.e then
      decide ((-1 : Int) ≤ d.m * ((10 ^ d.e.toNat : ℕ) : ℤ) * ((2 ^ 1075 : ℕ) : ℤ))
    else decide ((-1 : Int) * ((10 ^ (-d.e).toNat : ℕ) : ℤ) ≤ d.m * ((2 ^ 1075 : ℕ) : ℤ))) &&
    (if 0 ≤ d.e then
        decide (d.m * ((10 ^ d.e.toNat : ℕ) : ℤ) * ((2 ^ 53 : ℕ) : ℤ) ≤ ((2 ^ 53 + 1 : ℕ) : ℤ))
      else
        decide (d.m * ((2 ^ 53 : ℕ) : ℤ) ≤ ((2 ^ 53 + 1 : ℕ) : ℤ) * ((10 ^ (-d.e).toNat : ℕ) : ℤ)))

/-- Exponent-and-end part of the `f64` literal grammar: either the end of the
input or `eE [+-]? digits+` consuming the rest. -/
def parseExpTail (sgn : Int) (ip fp : List Char) : List Char → Option Dec
  | [] => some ⟨sgn * (digitsVal (ip ++ fp) : Int), -(fp.length : Int)⟩
  | 'e' :: r | 'E' :: r =>
    let se : Int × List Char :=
      match r with
      | '+' :: t => (1, t)
      | '-' :: t => (-1, t)
      | t => (1, t)
    match parseDigits se.2 with
    | some e => some ⟨sgn * (digitsVal (ip ++ fp) : Int), se.1 * (e : Int) - (fp.length : Int)⟩
    | none => none
  | _ => none

/-- Rust `s.parse::<f64>()`, modelled exactly as a decimal value:
`[+-]? (digits+ (. digits*)? | . digits+) ((e|E) [+-]? digits+)?`.
The `inf`/`infinity`/`nan` literals that Rust also accepts are folded into
`none`; inside `parse_alpha` this is observationally equivalent since those
values never pass the `[0, 1]` range check. -/
def rustParseDec (l : List Char) : Option Dec :=
  let sr : Int × List Char :=
    match l with
    | '+' :: t => (1, t)
    | '-' :: t => (-1, t)
    | t => (1, t)
  let ip := sr.2.takeWhile Char.isDigit
  let rest := sr.2.drop ip.length
  match rest with
  | '.' :: r =>
    let fp := r.takeWhile Char.isDigit
    let rest2 := r.drop fp.length
    if ip.isEmpty && fp.isEmpty then none
    else parseExpTail sr.1 ip fp rest2
  | _ =>
    if ip.isEmpty then none
    else parseExpTail sr.1 ip [] rest

/-! ## `validation.rs`: identifier and name grammars -/

/-- Loop body of `validate_id`: the three checks applied to one dot-separated
segment, in source order.  `uni` stands for Rust's Unicode
`char::is_alphanumeric`; the start-of-segment check is ASCII-only
(`is_ascii_alphabetic`), exactly as in the source. -/
def checkSegment (uni : Char → Bool) (part : List Char) : Except String Unit :=
  if !startsWithPred Char.isAlpha part then
    Except.error "segment must start with a ascii alphabetic character"
  else if !(part.all fun c => uni c || isSep c) then
    Except.error "name domain segment must only contain alpha numeric values and _ or -"
  else if endsWithSep part then
    Except.error "name domain segment must not end with _ or -"
  else
    Except.ok ()

/-- The `for part in parts` loop of `validate_id`: first error wins. -/
def validateSegs (uni : Char → Bool) : List (List Char) → Except String Unit
  | [] => Except.ok ()
  | p :: ps =>
    match checkSegment uni p with
    | Except.error e => Except.error e
    | Except.ok _ => validateSegs uni ps

/-- `validate_id` (validation.rs): split on `.` and check every segment. -/
def validate_id (uni : Char → Bool) (value : String) : Except String Unit :=
  validateSegs uni (splitOnChar '.' value.data)

/-- `validate_name` (validation.rs): the same three checks applied to the
whole string as a single segment, with its own messages. -/
def validate_name (uni : Char → Bool) (value : String) : Except String Unit :=
  if !startsWithPred Char.isAlpha value.data then
    Except.error "name must start with a ascii alphabetic character"
  else if !(value.data.all fun c => uni c || isSep c) then
    Except.error "name must only contain alpha numeric values and _ or -"
  else if endsWithSep value.data then
    Except.error "name must not end with _ or -"
  else
    Except.ok ()

/-! ## `validation.rs`: color grammar -/

/-- Rust `char::is_ascii_hexdigit`. -/
def isAsciiHexDigit (c : Char) : Bool :=
  c.isDigit || ('a' ≤ c && c ≤ 'f') || ('A' ≤ c && c ≤ 'F')

/-- `validate_hex_color`: `#` followed by 3, 4, 6 or 8 ASCII hex digits. -/
def validate_hex_color (v : List Char) : Except String Unit :=
  match stripPre? ['#'] v with
  | none => Except.error "hex color must start with #"
  | some value =>
    if value.length == 3 || value.length == 4 || value.length == 6 || value.length == 8 then
      if value.all isAsciiHexDigit then Except.ok ()
      else Except.error "hex color contains invalid characters"
    else
      Except.error "hex color must be 3, 4, 6, or 8 hex digits"

/-- `parse_percentage`: strip the `%` suffix, parse as `u8`, check `≤ 100`. -/
def parse_percentage (s : List Char) : Except String Unit :=
  match stripSuf? ['%'] s with
  | none => Except.error "missing % sign"
  | some number =>
    match parseBounded 255 number with
    | none => Except.error "invalid percent"
    | some v => if v > 100 then Except.error "percent > 100" else Except.ok ()

/-- `parse_rgb_component`: a percentage when the part ends with `%`, else a
`u16` that must be `≤ 255`. -/
def parse_rgb_component (s : List Char) : Except String Unit :=
  if endsWithChar '%' s then
    parse_percentage s
  else
    match parseBounded 65535 s with
    | none => Except.error "invalid number"
    | some v => if v > 255 then Except.error "rgb exceeded 255 bound" else Except.ok ()

/-- `parse_alpha`: the literal must parse as an `f64` whose value lies in the
closed range `[0, 1]`.  The range check is on the correctly-rounded binary64
value, i.e. on the exact decimal value via the boundary interval of
`Dec.inUnitF64` / `f64InUnit`. -/
def parse_alpha (s : List Char) : Except String Unit :=
  match rustParseDec s with
  | some v => if v.inUnitF64 then Except.ok () else Except.error "invalid alpha"
  | none => Except.error "invalid alpha"

/-- `parse_hue`: a `u16` that must be `≤ 360`. -/
def parse_hue (s : List Char) : Except String Unit :=
  match parseBounded 65535 s with
  | none => Except.error "invalid hue"
  | some v => if v > 360 then Except.error "hue must not be greater than 360" else Except.ok ()

/-- The shared `value.split(',').map(|s| s.trim())` step of the four
parenthesised color forms. -/
def splitParts (body : List Char) : List (List Char) :=
  (splitOnChar ',' body).map trimChars

/-- Sequential `?`-style evaluation of a list of checks: first error wins. -/
def seqChecks : List (Except String Unit) → Except String Unit
  | [] => Except.ok ()
  | Except.error e :: _ => Except.error e
  | Except.ok _ :: rest => seqChecks rest

/-- `validate_rgb_color`: strip `rgb(` and `)`, split on commas, require
exactly 3 parts, each an RGB component. -/
def validate_rgb_color (v : List Char) : Except String Unit :=
  match stripPre? "rgb(".data v with
  | none => Except.error "rgb color must start with rgb("
  | some v1 =>
    match stripSuf? [')'] v1 with
    | none => Except.error "unclosed rgb color"
    | some body =>
      match splitParts body with
      | [a, b, c] =>
        seqChecks [parse_rgb_component a, parse_rgb_component b, parse_rgb_component c]
      | _ => Except.error "invalid rgb color"

/-- `validate_rgba_color`: exactly 4 parts, three RGB components then an
alpha. -/
def validate_rgba_color (v : List Char) : Except String Unit :=
  match stripPre? "rgba(".data v with
  | none => Except.error "rgba color must start with rgba("
  | some v1 =>
    match stripSuf? [')'] v1 with
    | none => Except.error "unclosed rgba color"
    | some body =>
      match splitParts body with
      | [a, b, c, d] =>
        seqChecks
          [parse_rgb_component a, parse_rgb_component b, parse_rgb_component c, parse_alpha d]
      | _ => Except.error "invalid rgba color"

/-- `validate_hsl_color`: exactly 3 parts, a hue then two percentages. -/
def validate_hsl_color (v : List Char) : Except String Unit :=
  match stripPre? "hsl(".data v with
  | none => Except.error "hsl color must start with hsl("
  | some v1 =>
    match stripSuf? [')'] v1 with
    | none => Except.error "unclosed hsl color"
    | some body =>
      match splitParts body with
      | [h, s, li] => seqChecks [parse_hue h, parse_percentage s, parse_percentage li]
      | _ => Except.error "invalid hsl color"

/-- `validate_hsla_color`: exactly 4 parts, a hue, two percentages and an
alpha. -/
def validate_hsla_color (v : List Char) : Except String Unit :=
  match stripPre? "hsla(".data v with
  | none => Except.error "hsla color must start with hsla("
  | some v1 =>
    match stripSuf? [')'] v1 with
    | none => Except.error "unclosed hsla color"
    | some body =>
      match splitParts body with
      | [h, s, li, a] =>
        seqChecks [parse_hue h, parse_percentage s, parse_percentage li, parse_alpha a]
      | _ => Except.error "invalid hsla color"

/-- `validate_color`: trim, lowercase, dispatch on the literal's prefix,
reject anything unrecognised (named colors included). -/
def validate_color (value : String) : Except String Unit :=
  let v := lowerChars (trimChars value.data)
  if startsWithSeq ['#'] v then validate_hex_color v
  else if startsWithSeq "rgb(".data v then validate_rgb_color v
  else if startsWithSeq "rgba(".data v then validate_rgba_color v
  else if startsWithSeq "hsl(".data v then validate_hsl_color v
  else if startsWithSeq "hsla(".data v then validate_hsla_color v
  else Except.error "invalid color value"

/-! ## `system.rs`: OS and architecture enumerations -/

/-- `OperatingSystem` (system.rs). -/
inductive OperatingSystem
  | windows
  | macos
  | linux
deriving DecidableEq

/-- `Arch` (system.rs). -/
inductive Arch
  | x86
  | x64
  | arm
  | arm64
deriving DecidableEq

/-! ## `plugin.rs` / `icons.rs`: data model

Each garde-derived `Validate` impl is embedded as an `errors` function
returning the report the derive produces: a list of `(path, message)` pairs in
field-declaration order.  garde path components are field names, sequence
indices or map keys; the three kinds are kept distinct. -/

/-- One component of a garde error path. -/
inductive PathComp
  | field : String → PathComp
  | index : Nat → PathComp
  | key : String → PathComp
deriving DecidableEq

/-- A garde `Report`: every violation found, each with its path from the
document root. -/
abbrev Report := List (List PathComp × String)

/-- Re-root a sub-entity's report under one extra path component
(garde's `nested_path!`). -/
def under (c : PathComp) (r : Report) : Report :=
  r.map fun e => (c :: e.1, e.2)

/-- Report of a custom string validator at the current path (garde
`transparent` wrappers report at the wrapper's own path). -/
def customReport (r : Except String Unit) : Report :=
  match r with
  | Except.ok _ => []
  | Except.error m => [([], m)]

/-- garde's `length(min = 1)` rule on the string field `name`. -/
def lenMin1 (name : String) (s : String) : Report :=
  if s.data.length < 1 then [([PathComp.field name], "length is lower than 1")] else []

/-- `PluginId` (plugin.rs): newtype over the identifier string. -/
structure PluginId where
  val : String
deriving DecidableEq

/-- `PluginId::as_str`. -/
def PluginId.as_str (p : PluginId) : String :=
  p.val

/-- `PluginId::from_str` (also `TryFrom<String>`): wrap, validate with
`validate_id`, fail on a validation report. -/
def PluginId.from_str (uni : Char → Bool) (s : String) : Option PluginId :=
  match validate_id uni s with
  | Except.ok _ => some ⟨s⟩
  | Except.error _ => none

/-- `IconPackId` (icons.rs): newtype over the identifier string. -/
structure IconPackId where
  val : String
deriving DecidableEq

/-- `IconPackId::as_str`. -/
def IconPackId.as_str (p : IconPackId) : String :=
  p.val

/-- `IconPackId::from_str` (also `TryFrom<String>`). -/
def IconPackId.from_str (uni : Char → Bool) (s : String) : Option IconPackId :=
  match validate_id uni s with
  | Except.ok _ => some ⟨s⟩
  | Except.error _ => none

/-- `ActionId` (plugin.rs): newtype over the action-name string. -/
structure ActionId where
  val : String
deriving DecidableEq

/-- `ActionId::as_str`. -/
def ActionId.as_str (a : ActionId) : String :=
  a.val

/-- `ActionId::from_str` (also `TryFrom<String>`): validated with
`validate_name`. -/
def ActionId.from_str (uni : Char → Bool) (s : String) : Option ActionId :=
  match validate_name uni s with
  | Except.ok _ => some ⟨s⟩
  | Except.error _ => none

/-- `ManifestActionIconOptions` (plugin.rs). -/
structure ManifestActionIconOptions where
  padding : Option Nat
  background_color : Option String
  border_color : Option String

/-- garde `inner(custom(validate_color))` on an `Option<String>` field. -/
def colorOptCheck (name : String) (v : Option String) : Report :=
  match v with
  | none => []
  | some s =>
    match validate_color s with
    | Except.ok _ => []
    | Except.error m => [([PathComp.field name], m)]

/-- Derived `Validate` for `ManifestActionIconOptions`: `padding` skipped,
both color fields checked through `validate_color`. -/
def ManifestActionIconOptions.errors (o : ManifestActionIconOptions) : Report :=
  colorOptCheck "background_color" o.background_color ++
    colorOptCheck "border_color" o.border_color

/-- `ManifestAction` (plugin.rs). -/
structure ManifestAction where
  label : String
  icon : Option String
  display : Option String
  icon_options : Option ManifestActionIconOptions
  description : Option String
  inspector : Option String

/-- Derived `Validate` for `ManifestAction`: non-empty `label`, dive into
`icon_options`, everything else skipped. -/
def ManifestAction.errors (a : ManifestAction) : Report :=
  lenMin1 "label" a.label ++
    (match a.icon_options with
     | none => []
     | some o => under (PathComp.field "icon_options") o.errors)

/-- `ActionMap` (plugin.rs): order-preserving map from `ActionId` to
`ManifestAction` (the `IndexMap` is modelled as its entry list). -/
structure ActionMap where
  entries : List (ActionId × ManifestAction)

/-- The hand-written `Validate for ActionMap` (validation.rs): for every
entry, validate the VALUE with the path extended by the KEY.  The keys
themselves are not validated here. -/
def ActionMap.errors (m : ActionMap) : Report :=
  m.entries.flatMap fun kv => under (PathComp.key kv.1.val) kv.2.errors

/-- `MPlugin` (plugin.rs): the plugin-details block. -/
structure MPlugin where
  id : PluginId
  name : String
  version : String
  authors : List String
  description : Option String
  icon : Option String
  internal : Option Bool

/-- Derived `Validate` for `MPlugin`: dive into the id (transparent custom
`validate_id`), non-empty name and version, every author non-empty
(`inner(length(min = 1))`, path extended by the element's index), the rest
skipped. -/
def MPlugin.errors (uni : Char → Bool) (p : MPlugin) : Report :=
  under (PathComp.field "id") (customReport (validate_id uni p.id.val)) ++
    lenMin1 "name" p.name ++
    lenMin1 "version" p.version ++
    under (PathComp.field "authors")
      (p.authors.enum.flatMap fun ia =>
        if ia.2.data.length < 1 then
          [([PathComp.index ia.1], "length is lower than 1")]
        else []) ++
    []

/-- `MCategory` (plugin.rs). -/
structure MCategory where
  label : String
  icon : Option String

/-- Derived `Validate` for `MCategory`: non-empty label, icon skipped. -/
def MCategory.errors (c : MCategory) : Report :=
  lenMin1 "label" c.label

/-- `MBinNode` (plugin.rs); the semver `version` field is garde-skipped and
kept opaque here. -/
structure MBinNode where
  entrypoint : String
  version : String

/-- Derived `Validate` for `MBinNode`. -/
def MBinNode.errors (n : MBinNode) : Report :=
  lenMin1 "entrypoint" n.entrypoint

/-- `MBinNative` (plugin.rs): one native binary variant. -/
structure MBinNative where
  os : OperatingSystem
  arch : Arch
  path : String
deriving DecidableEq

/-- Derived `Validate` for `MBinNative`: os and arch skipped, non-empty
path. -/
def MBinNative.errors (b : MBinNative) : Report :=
  lenMin1 "path" b.path

/-- `MBin` (plugin.rs): node runtime or native binary list (the untagged
union, already disambiguated at decode time). -/
inductive MBin
  | node (node : MBinNode)
  | native (native : List MBinNative)

/-- Derived `Validate` for `MBin`: dive into the variant's field, native list
elements indexed. -/
def MBin.errors : MBin → Report
  | MBin.node n => under (PathComp.field "node") n.errors
  | MBin.native l =>
    under (PathComp.field "native")
      (l.enum.flatMap fun ib => under (PathComp.index ib.1) ib.2.errors)

/-- The `Option<MBin>` field: garde validates the payload when present. -/
def binOptErrors : Option MBin → Report
  | none => []
  | some b => b.errors

/-- `PluginManifest` (plugin.rs): the root plugin document. -/
structure PluginManifest where
  plugin : MPlugin
  bin : Option MBin
  category : MCategory
  actions : ActionMap

/-- Derived `Validate` for `PluginManifest`: dive into the four fields in
declaration order.  `TryFrom<&str>` succeeds exactly when this report is
empty. -/
def PluginManifest.errors (uni : Char → Bool) (m : PluginManifest) : Report :=
  under (PathComp.field "plugin") (m.plugin.errors uni) ++
    under (PathComp.field "bin") (binOptErrors m.bin) ++
    under (PathComp.field "category") m.category.errors ++
    under (PathComp.field "actions") m.actions.errors

/-- `MIconPack` (icons.rs): the icon-pack details block. -/
structure MIconPack where
  id : IconPackId
  name : String
  version : String
  authors : List String
  description : Option String
  icon : Option String

/-- Derived `Validate` for `MIconPack`: dive into the id, non-empty name and
version; `authors` is `garde(skip)` — no rule at all on its elements. -/
def MIconPack.errors (uni : Char → Bool) (p : MIconPack) : Report :=
  under (PathComp.field "id") (customReport (validate_id uni p.id.val)) ++
    lenMin1 "name" p.name ++
    lenMin1 "version" p.version

/-- `IconsManifest` (icons.rs): the root icon-pack document. -/
structure IconsManifest where
  icons : MIconPack

/-- Derived `Validate` for `IconsManifest`. -/
def IconsManifest.errors (uni : Char → Bool) (m : IconsManifest) : Report :=
  under (PathComp.field "icons") (m.icons.errors uni)

/-- `MBinNative::is_usable`: the variant targets exactly this OS and
architecture. -/
def MBinNative.is_usable (b : MBinNative) (os : OperatingSystem) (arch : Arch) : Bool :=
  b.os == os && b.arch == arch

/-- `MBinNative::find_usable`: first variant in declaration order usable on
the given OS/arch pair. -/
def MBinNative.find_usable (options : List MBinNative) (os : OperatingSystem)
    (arch : Arch) : Option MBinNative :=
  options.find? fun bin => bin.is_usable os arch

/-! ## Helper lemmas -/

theorem stripPre?_eq_some {pre l r : List Char} :
    stripPre? pre l = some r ↔ l = pre ++ r := by
  induction pre generalizing l with
  | nil =>
    simp [stripPre?]
  | cons p ps ih =>
    cases l with
    | nil => simp [stripPre?]
    | cons c cs =>
      by_cases hc : c = p
      · subst hc
        simp [stripPre?, ih]
      · simp [stripPre?, hc]

theorem stripSuf?_eq_some {suf l r : List Char} :
    stripSuf? suf l = some r ↔ l = r ++ suf := by
  rw [stripSuf?]
  constructor
  · intro h
    rcases Option.map_eq_some'.1 h with ⟨r', hr', hrev⟩
    have := stripPre?_eq_some.1 hr'
    subst hrev
    have := congrArg List.reverse this
    simpa using this
  · intro h
    subst h
    have hp : stripPre? suf.reverse (suf.reverse ++ r.reverse) = some r.reverse :=
      stripPre?_eq_some.2 rfl
    simp [List.reverse_append, hp]

theorem Dec.le_ratio_iff (d : Dec) (A B : ℤ) (hB : (0 : ℤ) < B) :
    (if 0 ≤ d.e then d.m * ((10 ^ d.e.toNat : ℕ) : ℤ) * B ≤ A
      else d.m * B ≤ A * ((10 ^ (-d.e).toNat : ℕ) : ℤ)) ↔ d.toRat ≤ (A : ℚ) / (B : ℚ) := by
  have hBQ : (0 : ℚ) < (B : ℚ) := by exact_mod_cast hB
  split_ifs with he
  · rw [Dec.toRat,
      show ((10 : ℚ) ^ d.e) = (10 : ℚ) ^ d.e.toNat by
        rw [← zpow_natCast]
        congr 1
        omega,
      le_div_iff₀ hBQ]
    exact_mod_cast Iff.rfl
  · set u := (-d.e).toNat with hu
    have hd : d.e = -(u : ℤ) := by omega
    rw [Dec.toRat, hd, zpow_neg, zpow_natCast, ← div_eq_mul_inv,
      div_le_div_iff₀ (by positivity) hBQ]
    exact_mod_cast Iff.rfl

theorem Dec.ratio_le_iff (d : Dec) (A B : ℤ) (hB : (0 : ℤ) < B) :
    (if 0 ≤ d.e then A ≤ d.m * ((10 ^ d.e.toNat : ℕ) : ℤ) * B
      else A * ((10 ^ (-d.e).toNat : ℕ) : ℤ) ≤ d.m * B) ↔ (A : ℚ) / (B : ℚ) ≤ d.toRat := by
  have hBQ : (0 : ℚ) < (B : ℚ) := by exact_mod_cast hB
  split_ifs with he
  · rw [Dec.toRat,
      show ((10 : ℚ) ^ d.e) = (10 : ℚ) ^ d.e.toNat by
        rw [← zpow_natCast]
        congr 1
        omega,
      div_le_iff₀ hBQ]
    exact_mod_cast Iff.rfl
  · set u := (-d.e).toNat with hu
    have hd : d.e = -(u : ℤ) := by omega
    rw [Dec.toRat, hd, zpow_neg, zpow_natCast, ← div_eq_mul_inv,
      div_le_div_iff₀ hBQ (by positivity)]
    exact_mod_cast Iff.rfl

theorem Dec.inUnitF64_iff (d : Dec) : d.inUnitF64 = true ↔ f64InUnit d.toRat := by
  have hlo := Dec.ratio_le_iff d (-1) ((2 ^ 1075 : ℕ) : ℤ) (by positivity)
  have hhi := Dec.le_ratio_iff d ((2 ^ 53 + 1 : ℕ) : ℤ) ((2 ^ 53 : ℕ) : ℤ) (by positivity)
  have e1 : (if 0 ≤ d.e then
        decide ((-1 : Int) ≤ d.m * ((10 ^ d.e.toNat : ℕ) : ℤ) * ((2 ^ 1075 : ℕ) : ℤ))
      else decide ((-1 : Int) * ((10 ^ (-d.e).toNat : ℕ) : ℤ) ≤
        d.m * ((2 ^ 1075 : ℕ) : ℤ))) = true ↔
      (if 0 ≤ d.e then (-1 : ℤ) ≤ d.m * ((10 ^ d.e.toNat : ℕ) : ℤ) * ((2 ^ 1075 : ℕ) : ℤ)
        else (-1 : ℤ) * ((10 ^ (-d.e).toNat : ℕ) : ℤ) ≤ d.m * ((2 ^ 1075 : ℕ) : ℤ)) := by
    split_ifs <;> rw [decide_eq_true_eq]
  have e2 : (if 0 ≤ d.e then
        decide (d.m * ((10 ^ d.e.toNat : ℕ) : ℤ) * ((2 ^ 53 : ℕ) : ℤ) ≤ ((2 ^ 53 + 1 : ℕ) : ℤ))
      else decide (d.m * ((2 ^ 53 : ℕ) : ℤ) ≤
        ((2 ^ 53 + 1 : ℕ) : ℤ) * ((10 ^ (-d.e).toNat : ℕ) : ℤ))) = true ↔
      (if 0 ≤ d.e then
        d.m * ((10 ^ d.e.toNat : ℕ) : ℤ) * ((2 ^ 53 : ℕ) : ℤ) ≤ ((2 ^ 53 + 1 : ℕ) : ℤ)
        else d.m * ((2 ^ 53 : ℕ) : ℤ) ≤
          ((2 ^ 53 + 1 : ℕ) : ℤ) * ((10 ^ (-d.e).toNat : ℕ) : ℤ)) := by
    split_ifs <;> rw [decide_eq_true_eq]
  rw [Dec.inUnitF64, Bool.and_eq_true, e1, e2, hlo, hhi, f64InUnit]
  have c1 : ((-1 : ℤ) : ℚ) / (((2 ^ 1075 : ℕ) : ℤ) : ℚ) = -(1 / 2 ^ 1075) := by
    push_cast
    ring
  have c2 : (((2 ^ 53 + 1 : ℕ) : ℤ) : ℚ) / (((2 ^ 53 : ℕ) : ℤ) : ℚ) = 1 + 1 / 2 ^ 53 := by
    push_cast
    norm_num
  rw [c1, c2]

theorem checkSegment_ok_iff (uni : Char → Bool) (p : List Char) :
    checkSegment uni p = Except.ok () ↔
      startsWithPred Char.isAlpha p = true ∧
        (p.all fun c => uni c || isSep c) = true ∧ endsWithSep p = false := by
  cases h1 : startsWithPred Char.isAlpha p <;>
    cases h2 : p.all (fun c => uni c || isSep c) <;>
      cases h3 : endsWithSep p <;> simp [checkSegment, h1, h2, h3]

theorem validateSegs_ok_iff (uni : Char → Bool) (ps : List (List Char)) :
    validateSegs uni ps = Except.ok () ↔ ∀ p ∈ ps, checkSegment uni p = Except.ok () := by
  induction ps with
  | nil => simp [validateSegs]
  | cons p ps ih =>
    cases hc : checkSegment uni p with
    | error e => simp [validateSegs, hc]
    | ok u =>
      cases u
      simp [validateSegs, hc, ih]

/-! ## Claim theorems -/

/-- C3.  `validate_id` accepts a string exactly when every dot-separated
segment starts with an ASCII alphabetic character, consists only of
(Unicode-)alphanumeric characters or the separators `-`/`_`, and does not end
with a separator; every rejected string violates one of these.  The
character-set check uses the Unicode classifier `uni`, the start check the
ASCII one — the source's asymmetry. -/
theorem validate_id_accepts_iff (uni : Char → Bool) (s : String) :
    validate_id uni s = Except.ok () ↔
      ∀ part ∈ splitOnChar '.' s.data,
        startsWithPred Char.isAlpha part = true ∧
          (part.all fun c => uni c || isSep c) = true ∧ endsWithSep part = false := by
  rw [validate_id, validateSegs_ok_iff]
  exact forall_congr' fun p => imp_congr_right fun _ => checkSegment_ok_iff uni p

/-- C3 witness: the characterisation applied at a concrete accepted
identifier. -/
theorem validate_id_accepts_iff_witness :
    validate_id Char.isAlphanum "plugin.test" = Except.ok () :=
  (validate_id_accepts_iff Char.isAlphanum "plugin.test").2 (by decide)

/-- Follows the spec's words (§4.1 fail-fast rule): the first violated rule's
message for a single segment, the three checks in the stated order. -/
def specSegError (uni : Char → Bool) (part : List Char) : Option String :=
  if !startsWithPred Char.isAlpha part then
    some "segment must start with a ascii alphabetic character"
  else if !(part.all fun c => uni c || isSep c) then
    some "name domain segment must only contain alpha numeric values and _ or -"
  else if endsWithSep part then
    some "name domain segment must not end with _ or -"
  else none

/-- Follows the spec's words: scanning the segments left to right, the first
failing segment's first failing check supplies the message. -/
def specFirstIdError (uni : Char → Bool) (s : String) : Option String :=
  (splitOnChar '.' s.data).findSome? (specSegError uni)

/-- C7.  `validate_id` returns the error of the FIRST violated rule: segments
are scanned left to right and inside a segment the start-letter check runs
before the character-set check, which runs before the trailing-separator
check; no later segment or check contributes. -/
theorem validate_id_first_error (uni : Char → Bool) (s : String) :
    validate_id uni s =
      match specFirstIdError uni s with
      | some m => Except.error m
      | none => Except.ok () := by
  rw [validate_id, specFirstIdError]
  have hseg : ∀ p, checkSegment uni p =
      match specSegError uni p with
      | some m => Except.error m
      | none => Except.ok () := by
    intro p
    rw [checkSegment, specSegError]
    split_ifs <;> rfl
  induction splitOnChar '.' s.data with
  | nil => simp [validateSegs, List.findSome?]
  | cons p ps ih =>
    rw [validateSegs, List.findSome?_cons, hseg p]
    cases hse : specSegError uni p with
    | some m => simp [hse]
    | none => simp [hse, ih]

/-- C7 witness: a string whose second segment violates both the character-set
and the trailing-separator rules is reported with the character-set message,
the first of the two in check order. -/
theorem validate_id_first_error_witness :
    validate_id Char.isAlphanum "plugin.te$t_" =
      Except.error "name domain segment must only contain alpha numeric values and _ or -" := by
  rw [validate_id_first_error Char.isAlphanum "plugin.te$t_"]
  rfl

/-- C6.  `MBinNative::find_usable` returns the first variant in declaration
order whose os and arch both equal the target, and `none` when no variant
matches; in particular with two matching variants the first declared wins. -/
theorem find_usable_first_match :
    (∀ (l : List MBinNative) (os : OperatingSystem) (arch : Arch) (b : MBinNative),
        MBinNative.find_usable l os arch = some b ↔
          b.is_usable os arch = true ∧
            ∃ l1 l2, l = l1 ++ b :: l2 ∧ ∀ x ∈ l1, x.is_usable os arch = false) ∧
      (∀ (l : List MBinNative) (os : OperatingSystem) (arch : Arch),
        MBinNative.find_usable l os arch = none ↔ ∀ b ∈ l, b.is_usable os arch = false) ∧
      (∀ (l1 : List MBinNative) (b1 : MBinNative) (mid : List MBinNative) (b2 : MBinNative)
          (l2 : List MBinNative) (os : OperatingSystem) (arch : Arch),
        (∀ x ∈ l1, x.is_usable os arch = false) → b1.is_usable os arch = true →
          MBinNative.find_usable (l1 ++ b1 :: (mid ++ b2 :: l2)) os arch = some b1) := by
  have hsome : ∀ (l : List MBinNative) (os : OperatingSystem) (arch : Arch) (b : MBinNative),
      MBinNative.find_usable l os arch = some b ↔
        b.is_usable os arch = true ∧
          ∃ l1 l2, l = l1 ++ b :: l2 ∧ ∀ x ∈ l1, x.is_usable os arch = false := by
    intro l os arch b
    induction l with
    | nil => simp [MBinNative.find_usable]
    | cons hd tl ih =>
      by_cases hhd : hd.is_usable os arch = true
      · rw [MBinNative.find_usable, @List.find?_cons_of_pos _ (fun bin => bin.is_usable os arch) hd tl hhd]
        constructor
        · intro h
          cases h
          exact ⟨hhd, [], tl, rfl, by simp⟩
        · rintro ⟨hb, l1, l2, hdec, hall⟩
          cases l1 with
          | nil => simp at hdec; simp [hdec.1]
          | cons y ys =>
            simp at hdec
            obtain ⟨rfl, -⟩ := hdec
            have := hall hd (by simp)
            rw [this] at hhd
            cases hhd
      · rw [MBinNative.find_usable, @List.find?_cons_of_neg _ (fun bin => bin.is_usable os arch) hd tl hhd]
        rw [MBinNative.find_usable] at ih
        rw [ih]
        constructor
        · rintro ⟨hb, l1, l2, rfl, hall⟩
          exact ⟨hb, hd :: l1, l2, rfl, by
            intro x hx
            rcases List.mem_cons.1 hx with rfl | hx'
            · simpa using hhd
            · exact hall x hx'⟩
        · rintro ⟨hb, l1, l2, hdec, hall⟩
          cases l1 with
          | nil =>
            simp at hdec
            obtain ⟨rfl, -⟩ := hdec
            exact absurd hb hhd
          | cons y ys =>
            simp at hdec
            obtain ⟨rfl, rfl⟩ := hdec
            exact ⟨hb, ys, l2, rfl, fun x hx => hall x (by simp [hx])⟩
  refine ⟨hsome, ?_, ?_⟩
  · intro l os arch
    rw [MBinNative.find_usable]
    rw [List.find?_eq_none]
    constructor
    · intro h b hb
      have := h b hb
      simpa using this
    · intro h b hb
      simp [h b hb]
  · intro l1 b1 mid b2 l2 os arch hall hb1
    exact (hsome _ os arch b1).2 ⟨hb1, l1, mid ++ b2 :: l2, rfl, hall⟩

/-- C6 witness: two variants for the same target, the first declared is
returned. -/
theorem find_usable_first_match_witness :
    MBinNative.find_usable
        [⟨OperatingSystem.linux, Arch.x64, "bin/linux-x64-v1"⟩,
          ⟨OperatingSystem.linux, Arch.x64, "bin/linux-x64-v2"⟩]
        OperatingSystem.linux Arch.x64 =
      some ⟨OperatingSystem.linux, Arch.x64, "bin/linux-x64-v1"⟩ := by
  have h := find_usable_first_match.2.2 [] ⟨OperatingSystem.linux, Arch.x64, "bin/linux-x64-v1"⟩
    [] ⟨OperatingSystem.linux, Arch.x64, "bin/linux-x64-v2"⟩ []
    OperatingSystem.linux Arch.x64 (by simp) (by decide)
  simpa using h

/-- C8.  Every string accepted by `validate_id` (resp. `validate_name`)
yields a successful `from_str` construction wrapping exactly that string;
`as_str` returns the wrapped string unchanged, and re-constructing an
identifier from its own `as_str` output succeeds and round-trips. -/
theorem identifier_roundtrip (uni : Char → Bool) (s : String) :
    (validate_id uni s = Except.ok () → PluginId.from_str uni s = some ⟨s⟩) ∧
      (validate_name uni s = Except.ok () → ActionId.from_str uni s = some ⟨s⟩) ∧
      (validate_id uni s = Except.ok () → IconPackId.from_str uni s = some ⟨s⟩) ∧
      (∀ p : PluginId, PluginId.from_str uni s = some p →
        p.as_str = s ∧ PluginId.from_str uni p.as_str = some p) ∧
      (∀ a : ActionId, ActionId.from_str uni s = some a →
        a.as_str = s ∧ ActionId.from_str uni a.as_str = some a) ∧
      (∀ i : IconPackId, IconPackId.from_str uni s = some i →
        i.as_str = s ∧ IconPackId.from_str uni i.as_str = some i) := by
  refine ⟨?_, ?_, ?_, ?_, ?_, ?_⟩
  · intro h
    rw [PluginId.from_str, h]
  · intro h
    rw [ActionId.from_str, h]
  · intro h
    rw [IconPackId.from_str, h]
  · intro p hp
    rw [PluginId.from_str] at hp
    cases hv : validate_id uni s with
    | error e => rw [hv] at hp; cases hp
    | ok u =>
      cases u
      rw [hv] at hp
      cases hp
      exact ⟨rfl, by rw [PluginId.from_str, PluginId.as_str, hv]⟩
  · intro a ha
    rw [ActionId.from_str] at ha
    cases hv : validate_name uni s with
    | error e => rw [hv] at ha; cases ha
    | ok u =>
      cases u
      rw [hv] at ha
      cases ha
      exact ⟨rfl, by rw [ActionId.from_str, ActionId.as_str, hv]⟩
  · intro i hi
    rw [IconPackId.from_str] at hi
    cases hv : validate_id uni s with
    | error e => rw [hv] at hi; cases hi
    | ok u =>
      cases u
      rw [hv] at hi
      cases hi
      exact ⟨rfl, by rw [IconPackId.from_str, IconPackId.as_str, hv]⟩

/-- C8 witness: construction and round-trip at concrete accepted
identifiers. -/
theorem identifier_roundtrip_witness :
    PluginId.from_str Char.isAlphanum "plugin.test" = some ⟨"plugin.test"⟩ ∧
      ActionId.from_str Char.isAlphanum "my_action-1" = some ⟨"my_action-1"⟩ ∧
      PluginId.as_str ⟨"plugin.test"⟩ = "plugin.test" ∧
      PluginId.from_str Char.isAlphanum (PluginId.as_str ⟨"plugin.test"⟩) =
        some ⟨"plugin.test"⟩ := by
  have h1 := (identifier_roundtrip Char.isAlphanum "plugin.test").1 rfl
  have h2 := (identifier_roundtrip Char.isAlphanum "my_action-1").2.1 rfl
  have h4 := (identifier_roundtrip Char.isAlphanum "plugin.test").2.2.2.1 ⟨"plugin.test"⟩ h1
  exact ⟨h1, h2, h4.1, h4.2⟩

/-- C9.  Icon-pack validation applies no rule to the elements of `authors`
(the report does not depend on that field at all, so an empty-string author
is accepted), while plugin validation rejects every plugin block whose
`authors` list contains an empty string. -/
theorem authors_rules_asym (uni : Char → Bool) :
    (∀ (p : MIconPack) (l1 l2 : List String),
        MIconPack.errors uni
            ⟨p.id, p.name, p.version, l1, p.description, p.icon⟩ =
          MIconPack.errors uni ⟨p.id, p.name, p.version, l2, p.description, p.icon⟩) ∧
      ∀ mp : MPlugin, "" ∈ mp.authors → MPlugin.errors uni mp ≠ [] := by
  constructor
  · intro p l1 l2
    rfl
  · intro mp hmem
    rw [MPlugin.errors]
    intro hnil
    rcases List.append_eq_nil.1 hnil with ⟨hinit, -⟩
    rcases List.append_eq_nil.1 hinit with ⟨hinit2, hauth⟩
    rcases List.mem_iff_get.1 hmem with ⟨n, hn⟩
    have hpair : (n.val, "") ∈ mp.authors.enum := by
      rw [List.mem_enum_iff_getElem?]
      rw [List.getElem?_eq_getElem n.isLt]
      rw [← List.get_eq_getElem, hn]
    have hne : under (PathComp.field "authors")
        (mp.authors.enum.flatMap fun ia =>
          if ia.2.data.length < 1 then
            [([PathComp.index ia.1], "length is lower than 1")]
          else []) ≠ [] := by
      rw [under]
      simp only [ne_eq, List.map_eq_nil_iff, List.flatMap_eq_nil_iff]
      intro hall
      have := hall (n.val, "") hpair
      simp at this
    exact hne hauth

/-- C9 witness: a concrete plugin block with an empty-string author is
rejected. -/
theorem authors_rules_asym_witness :
    MPlugin.errors Char.isAlphanum
        ⟨⟨"com.example.demo"⟩, "Demo", "1.0.0", [""], none, none, none⟩ ≠ [] :=
  (authors_rules_asym Char.isAlphanum).2
    ⟨⟨"com.example.demo"⟩, "Demo", "1.0.0", [""], none, none, none⟩ (by simp)

set_option maxRecDepth 2500 in
/-- C4.  `validate_color` accepts every hex form of 3/4/6/8 digits and the
well-formed rgb/rgba/hsl/hsla literals, and rejects a 2-digit hex, wrong part
counts, out-of-range components, named colors and the empty string. -/
theorem validate_color_totality :
    validate_color "#abc" = Except.ok () ∧
      validate_color "#abcd" = Except.ok () ∧
      validate_color "#abcdef" = Except.ok () ∧
      validate_color "#abcdef12" = Except.ok () ∧
      validate_color "rgb(0,0,0)" = Except.ok () ∧
      validate_color "rgba(0,0,0,0)" = Except.ok () ∧
      validate_color "hsl(360,100%,50%)" = Except.ok () ∧
      validate_color "hsla(0,0%,0%,0)" = Except.ok () ∧
      validate_color "#ab" = Except.error "hex color must be 3, 4, 6, or 8 hex digits" ∧
      validate_color "rgb(1,2)" = Except.error "invalid rgb color" ∧
      validate_color "rgb(300,0,0)" = Except.error "rgb exceeded 255 bound" ∧
      validate_color "hsl(361,0%,0%)" = Except.error "hue must not be greater than 360" ∧
      validate_color "hsla(0,0%,0%,2)" = Except.error "invalid alpha" ∧
      validate_color "red" = Except.error "invalid color value" ∧
      validate_color "" = Except.error "invalid color value" :=
  ⟨rfl, rfl, rfl, rfl, rfl, rfl, rfl, rfl, rfl, rfl, rfl, rfl, rfl, rfl, rfl⟩

theorem parseBounded_eq_some {bound : Nat} {l : List Char} {n : Nat} :
    parseBounded bound l = some n ↔ rustParseNat l = some n ∧ n ≤ bound := by
  rw [parseBounded]
  cases h : rustParseNat l with
  | none => simp
  | some m =>
    by_cases hb : m ≤ bound
    · simp [hb]
      rintro rfl
      exact hb
    · simp [hb]
      rintro rfl
      omega

/-- C5.  The per-part rules of the parenthesised color forms: a percentage
part is valid iff it ends in `%` with an unsigned numeric value of at most
100; an alpha part is valid iff it parses as a floating-point number whose
(correctly rounded, ties-to-even) binary64 value lies in the closed range
`[0.0, 1.0]` — i.e. iff its exact decimal value lies in `f64InUnit`'s
boundary interval `[-2^-1075, 1 + 2^-53]`; a hue is valid iff it is an
unsigned integer of at most 360; a non-percentage RGB component is valid iff
it is an unsigned integer of at most 255; and a wrong part count (other than
3 for rgb/hsl, 4 for rgba/hsla) fails the literal with the count error
regardless of the parts' contents. -/
theorem color_component_rules :
    (∀ s : List Char, parse_percentage s = Except.ok () ↔
        ∃ body n, s = body ++ ['%'] ∧ rustParseNat body = some n ∧ n ≤ 100) ∧
      (∀ s : List Char, parse_alpha s = Except.ok () ↔
        ∃ d : Dec, rustParseDec s = some d ∧ f64InUnit d.toRat) ∧
      (∀ s : List Char, parse_hue s = Except.ok () ↔
        ∃ n, rustParseNat s = some n ∧ n ≤ 360) ∧
      (∀ s : List Char, endsWithChar '%' s = false →
        (parse_rgb_component s = Except.ok () ↔
          ∃ n, rustParseNat s = some n ∧ n ≤ 255)) ∧
      (∀ body : List Char, (splitParts body).length ≠ 3 →
        validate_rgb_color ("rgb(".data ++ body ++ [')']) =
          Except.error "invalid rgb color") ∧
      (∀ body : List Char, (splitParts body).length ≠ 4 →
        validate_rgba_color ("rgba(".data ++ body ++ [')']) =
          Except.error "invalid rgba color") ∧
      (∀ body : List Char, (splitParts body).length ≠ 3 →
        validate_hsl_color ("hsl(".data ++ body ++ [')']) =
          Except.error "invalid hsl color") ∧
      (∀ body : List Char, (splitParts body).length ≠ 4 →
        validate_hsla_color ("hsla(".data ++ body ++ [')']) =
          Except.error "invalid hsla color") := by
  refine ⟨?_, ?_, ?_, ?_, ?_, ?_, ?_, ?_⟩
  · intro s
    cases hss : stripSuf? ['%'] s with
    | none =>
      simp only [parse_percentage, hss]
      constructor
      · intro h
        cases h
      · rintro ⟨body, n, rfl, -, -⟩
        rw [stripSuf?_eq_some.2 rfl] at hss
        cases hss
    | some number =>
      have hs : s = number ++ ['%'] := stripSuf?_eq_some.1 hss
      subst hs
      cases hpb : parseBounded 255 number with
      | none =>
        simp only [parse_percentage, hss, hpb]
        constructor
        · intro h
          cases h
        · rintro ⟨body, n, hb, hparse, hle⟩
          have hbn : body = number := List.append_cancel_right hb.symm
          subst hbn
          rw [parseBounded_eq_some.2 ⟨hparse, hle.trans (by norm_num)⟩] at hpb
          cases hpb
      | some v =>
        obtain ⟨hparse, -⟩ := parseBounded_eq_some.1 hpb
        by_cases hv : v > 100
        · simp only [parse_percentage, hss, hpb, if_pos hv]
          constructor
          · intro h
            cases h
          · rintro ⟨body, n, hb, hparse', hle⟩
            have hbn : body = number := List.append_cancel_right hb.symm
            subst hbn
            rw [hparse] at hparse'
            cases hparse'
            omega
        · simp only [parse_percentage, hss, hpb, if_neg hv]
          exact iff_of_true trivial ⟨number, v, rfl, hparse, by omega⟩
  · intro s
    cases hd : rustParseDec s with
    | none =>
      simp only [parse_alpha, hd]
      constructor
      · intro h
        cases h
      · rintro ⟨d, hd', -⟩
        cases hd'
    | some d =>
      by_cases hu : d.inUnitF64 = true
      · simp only [parse_alpha, hd, if_pos hu]
        exact iff_of_true trivial ⟨d, rfl, (Dec.inUnitF64_iff d).1 hu⟩
      · simp only [parse_alpha, hd, if_neg hu]
        constructor
        · intro h
          cases h
        · rintro ⟨d', hd', hrange⟩
          cases hd'
          exact absurd ((Dec.inUnitF64_iff d).2 hrange) hu
  · intro s
    cases hpb : parseBounded 65535 s with
    | none =>
      simp only [parse_hue, hpb]
      constructor
      · intro h
        cases h
      · rintro ⟨n, hparse, hle⟩
        rw [parseBounded_eq_some.2 ⟨hparse, hle.trans (by norm_num)⟩] at hpb
        cases hpb
    | some v =>
      obtain ⟨hparse, -⟩ := parseBounded_eq_some.1 hpb
      by_cases hv : v > 360
      · simp only [parse_hue, hpb, if_pos hv]
        constructor
        · intro h
          cases h
        · rintro ⟨n, hparse', hle⟩
          rw [hparse] at hparse'
          cases hparse'
          omega
      · simp only [parse_hue, hpb, if_neg hv]
        exact iff_of_true trivial ⟨v, hparse, by omega⟩
  · intro s hpc
    cases hpb : parseBounded 65535 s with
    | none =>
      simp only [parse_rgb_component, hpc, Bool.false_eq_true, if_false, hpb]
      constructor
      · intro h
        cases h
      · rintro ⟨n, hparse, hle⟩
        rw [parseBounded_eq_some.2 ⟨hparse, hle.trans (by norm_num)⟩] at hpb
        cases hpb
    | some v =>
      obtain ⟨hparse, -⟩ := parseBounded_eq_some.1 hpb
      by_cases hv : v > 255
      · simp only [parse_rgb_component, hpc, Bool.false_eq_true, if_false, hpb, if_pos hv]
        constructor
        · intro h
          cases h
        · rintro ⟨n, hparse', hle⟩
          rw [hparse] at hparse'
          cases hparse'
          omega
      · simp only [parse_rgb_component, hpc, Bool.false_eq_true, if_false, hpb, if_neg hv]
        exact iff_of_true trivial ⟨v, hparse, by omega⟩
  · intro body hlen
    have h1 : stripPre? "rgb(".data ("rgb(".data ++ body ++ [')']) = some (body ++ [')']) :=
      stripPre?_eq_some.2 (List.append_assoc _ _ _)
    have h2 : stripSuf? [')'] (body ++ [')']) = some body := stripSuf?_eq_some.2 rfl
    simp only [validate_rgb_color, h1, h2]
    rcases hsp : splitParts body with _ | ⟨a, _ | ⟨b, _ | ⟨c, _ | ⟨d, tl⟩⟩⟩⟩ <;>
      first
        | rfl
        | (rw [hsp] at hlen; simp at hlen)
  · intro body hlen
    have h1 : stripPre? "rgba(".data ("rgba(".data ++ body ++ [')']) = some (body ++ [')']) :=
      stripPre?_eq_some.2 (List.append_assoc _ _ _)
    have h2 : stripSuf? [')'] (body ++ [')']) = some body := stripSuf?_eq_some.2 rfl
    simp only [validate_rgba_color, h1, h2]
    rcases hsp : splitParts body with _ | ⟨a, _ | ⟨b, _ | ⟨c, _ | ⟨d, _ | ⟨e, tl⟩⟩⟩⟩⟩ <;>
      first
        | rfl
        | (rw [hsp] at hlen; simp at hlen)
  · intro body hlen
    have h1 : stripPre? "hsl(".data ("hsl(".data ++ body ++ [')']) = some (body ++ [')']) :=
      stripPre?_eq_some.2 (List.append_assoc _ _ _)
    have h2 : stripSuf? [')'] (body ++ [')']) = some body := stripSuf?_eq_some.2 rfl
    simp only [validate_hsl_color, h1, h2]
    rcases hsp : splitParts body with _ | ⟨a, _ | ⟨b, _ | ⟨c, _ | ⟨d, tl⟩⟩⟩⟩ <;>
      first
        | rfl
        | (rw [hsp] at hlen; simp at hlen)
  · intro body hlen
    have h1 : stripPre? "hsla(".data ("hsla(".data ++ body ++ [')']) = some (body ++ [')']) :=
      stripPre?_eq_some.2 (List.append_assoc _ _ _)
    have h2 : stripSuf? [')'] (body ++ [')']) = some body := stripSuf?_eq_some.2 rfl
    simp only [validate_hsla_color, h1, h2]
    rcases hsp : splitParts body with _ | ⟨a, _ | ⟨b, _ | ⟨c, _ | ⟨d, _ | ⟨e, tl⟩⟩⟩⟩⟩ <;>
      first
        | rfl
        | (rw [hsp] at hlen; simp at hlen)

set_option maxRecDepth 2500 in
/-- C5 witness: the component rules applied at concrete inputs, including the
floating-point boundary literals `1.0000000000000000001` (rounds to `1.0`)
and `-1e-400` (rounds to `-0.0`), both accepted. -/
theorem color_component_rules_witness :
    parse_percentage "50%".data = Except.ok () ∧
      parse_hue "360".data = Except.ok () ∧
      parse_rgb_component "255".data = Except.ok () ∧
      parse_alpha "1".data = Except.ok () ∧
      parse_alpha "1.0000000000000000001".data = Except.ok () ∧
      parse_alpha "-1e-400".data = Except.ok () ∧
      validate_rgb_color "rgb(1,2)".data = Except.error "invalid rgb color" ∧
      validate_hsla_color "hsla(0,0%,0%)".data = Except.error "invalid hsla color" := by
  refine ⟨?_, ?_, ?_, ?_, rfl, rfl, ?_, ?_⟩
  · exact (color_component_rules.1 "50%".data).2 ⟨"50".data, 50, rfl, rfl, by norm_num⟩
  · exact (color_component_rules.2.2.1 "360".data).2 ⟨360, rfl, by norm_num⟩
  · exact (color_component_rules.2.2.2.1 "255".data rfl).2 ⟨255, rfl, by norm_num⟩
  · exact (color_component_rules.2.1 "1".data).2 ⟨⟨1, 0⟩, rfl, by norm_num [f64InUnit, Dec.toRat]⟩
  · have h := color_component_rules.2.2.2.2.1 "1,2".data (by decide)
    simpa using h
  · have h := color_component_rules.2.2.2.2.2.2.2 "0,0%,0%".data (by decide)
    simpa using h

theorem flatMap_under_length (L : List (ActionId × ManifestAction))
    (hone : ∀ kv ∈ L, (ManifestAction.errors kv.2).length ≤ 1) :
    (L.flatMap fun kv => under (PathComp.key kv.1.val) (ManifestAction.errors kv.2)).length =
      (L.filter fun kv => !(ManifestAction.errors kv.2).isEmpty).length := by
  induction L with
  | nil => rfl
  | cons kv tl ih =>
    have h1 := hone kv (by simp)
    have ih' := ih fun x hx => hone x (by simp [hx])
    rw [List.flatMap_cons, List.length_append]
    cases he : ManifestAction.errors kv.2 with
    | nil =>
      have hlen : (under (PathComp.key kv.1.val) ([] : Report)).length = 0 := rfl
      rw [List.filter_cons_of_neg (by simp [he]), hlen, ih']
      omega
    | cons a tl2 =>
      have h2 : tl2 = [] := by
        rw [he] at h1
        simpa using h1
      subst h2
      have hlen : (under (PathComp.key kv.1.val) [a]).length = 1 := rfl
      rw [List.filter_cons_of_pos (by simp [he]), hlen, ih', List.length_cons]
      omega

/-- C2.  When the plugin block, bin and category are valid and every action
violates at most one field rule, the manifest report has exactly one entry
per invalid action (none for the valid ones) and every entry's path descends
through the `actions` field and then the action's `ActionId` KEY. -/
theorem plugin_manifest_action_aggregation (uni : Char → Bool) (m : PluginManifest)
    (hp : m.plugin.errors uni = [])
    (hb : binOptErrors m.bin = [])
    (hc : m.category.errors = [])
    (hone : ∀ kv ∈ m.actions.entries, (ManifestAction.errors kv.2).length ≤ 1) :
    (m.errors uni).length =
        (m.actions.entries.filter fun kv => !(ManifestAction.errors kv.2).isEmpty).length ∧
      ∀ e ∈ m.errors uni, ∃ kv ∈ m.actions.entries,
        ManifestAction.errors kv.2 ≠ [] ∧
          ∃ rest, e.1 = PathComp.field "actions" :: PathComp.key kv.1.val :: rest := by
  have hred : m.errors uni = under (PathComp.field "actions") m.actions.errors := by
    rw [PluginManifest.errors, hp, hb, hc]
    simp [under]
  constructor
  · rw [hred, under, List.length_map, ActionMap.errors]
    exact flatMap_under_length m.actions.entries hone
  · intro e he
    rw [hred, under] at he
    rcases List.mem_map.1 he with ⟨e', he', rfl⟩
    rw [ActionMap.errors] at he'
    rcases List.mem_flatMap.1 he' with ⟨kv, hkv, hin⟩
    rcases List.mem_map.1 hin with ⟨e'', he'', rfl⟩
    exact ⟨kv, hkv, List.ne_nil_of_mem he'', e''.1, rfl⟩

/-- C2 witness: a manifest with two invalid actions (empty labels) and one
valid action yields exactly two report entries. -/
theorem plugin_manifest_action_aggregation_witness :
    (PluginManifest.errors Char.isAlphanum
          ⟨⟨⟨"com.example.demo"⟩, "Demo", "1.0.0", ["Author"], none, none, none⟩,
            none,
            ⟨"Category", none⟩,
            ⟨[(⟨"bad_one"⟩, ⟨"", none, none, none, none, none⟩),
              (⟨"good"⟩, ⟨"Fine", none, none, none, none, none⟩),
              (⟨"bad_two"⟩, ⟨"", none, none, none, none, none⟩)]⟩⟩).length = 2 := by
  have h := plugin_manifest_action_aggregation Char.isAlphanum
    ⟨⟨⟨"com.example.demo"⟩, "Demo", "1.0.0", ["Author"], none, none, none⟩,
      none,
      ⟨"Category", none⟩,
      ⟨[(⟨"bad_one"⟩, ⟨"", none, none, none, none, none⟩),
        (⟨"good"⟩, ⟨"Fine", none, none, none, none, none⟩),
        (⟨"bad_two"⟩, ⟨"", none, none, none, none, none⟩)]⟩⟩
    rfl rfl rfl (by decide)
  rw [h.1]
  rfl

/-- The concrete plugin manifest demonstrating the unvalidated-key gap: every
field satisfies its rule, but the single action is keyed by the string
`"1bad"`, which `validate_name` rejects. -/
def badKeyManifest : PluginManifest :=
  ⟨⟨⟨"com.example.demo"⟩, "Demo", "1.0.0", ["Author"], none, none, none⟩,
    none,
    ⟨"Category", none⟩,
    ⟨[(⟨"1bad"⟩, ⟨"My Action", none, none, none, none, none⟩)]⟩⟩

/-- C1.  The claimed invariant fails for `ActionId` map keys: the
hand-written `Validate for ActionMap` validates only the VALUES, so a
manifest whose action key violates the name grammar still validates with an
empty report, leaving an `ActionId` in memory whose string `validate_name`
rejects.  (`FromStr`/`TryFrom` construction and `PluginId`/`IconPackId`
manifest validation do go through the grammar.) -/
theorem validated_actionmap_key_unchecked :
    PluginManifest.errors Char.isAlphanum badKeyManifest = [] ∧
      badKeyManifest.actions.entries.map (fun kv => kv.1.val) = ["1bad"] ∧
      validate_name Char.isAlphanum "1bad" =
        Except.error "name must start with a ascii alphabetic character" :=
  ⟨rfl, rfl, rfl⟩

/-- C10.  Unsigned numeric components of color literals also accept a leading
`+` sign and leading zeros, because Rust's unsigned-integer parsing does:
concretely `rgb(+10,007,0)` and `hsl(+5,+10%,10%)` are accepted, and a
leading `+` is stripped before the digits are read. -/
theorem numeric_plus_and_zeros :
    validate_color "rgb(+10,007,0)" = Except.ok () ∧
      validate_color "hsl(+5,+10%,10%)" = Except.ok () ∧
      ∀ l : List Char, rustParseNat ('+' :: l) = parseDigits l := by
  refine ⟨rfl, rfl, ?_⟩
  intro l
  rfl

end Tilepad
